import Mathlib

/-!
# RPN calculator (`src/rpn_calc.cpp`)

A shallow embedding of the class `RPNCalculator` and a verification of its
documented behaviour.

* The object state is the pair of its two data members, `numStack` and
  `lastError`.  The stack is a list whose head is the top of the stack.
* A member function that may throw is a function from the state before the
  call to a pair: the outcome (`Except Exn α`, the thrown exception or the
  returned value) and the state after the call.  The state survives a throw,
  as it does in C++.
* The type `double` and the library functions that work on it (`pow`, `sqrt`,
  `stod`, the conversions to and from `int`) are not part of the repository:
  they are the fields of the parameter `Arith`.  Every theorem holds for every
  arithmetic; `exactArith` is the arithmetic of the rational numbers.
* A `std::string` is a `String`, each character standing for one `char`.
-/

namespace RPN

/-! ## Exceptions -/

/-- The classes of `std::exception` that the program throws, or that `stod`
throws into it. -/
inductive ExnClass where
  | runtime_error
  | invalid_argument
  | out_of_range
  deriving DecidableEq, Repr

/-- A thrown exception: its class and the string that `what()` returns. -/
structure Exn where
  cls : ExnClass
  what : String
  deriving DecidableEq, Repr

/-- Message of `pop` on an empty stack (line 29). -/
def msgEmptyStack : String := "错误：栈为空，无法弹出数字"

/-- Message of `calculate` for a token that is not one character long (line 42). -/
def msgMultiChar : String := "错误：不支持多字符操作符"

/-- Message of `calculate` for a zero divisor (line 63). -/
def msgDivZero : String := "错误：除数不能为0"

/-- Message of `calculate` for the square root of a negative number (line 74). -/
def msgNegSqrt : String := "错误：负数无法计算平方根"

/-- Message of `calculate` for an unknown operator (line 80): the token between
two single quotes. -/
def msgBadOp (operation : String) : String :=
  "错误：不支持的操作符 \x27" ++ operation ++ "\x27"

/-- Message of `processExpression` when the final stack size is not one
(line 135): the size in decimal, as `to_string` prints it. -/
def msgMalformed (size : Nat) : String :=
  "错误：表达式格式无效，栈中剩余 " ++ toString size ++ " 个数字"

/-- Message of `fibonacci` for a negative index (line 186). -/
def msgNegIndex : String := "错误：斐波那契数列项数不能为负数"

/-- The exception of `pop` on an empty stack: the spec's `EmptyStackError`. -/
def EmptyStackError : Exn := ⟨.runtime_error, msgEmptyStack⟩

/-- The exception for a zero divisor: the spec's `DivisionByZeroError`. -/
def DivisionByZeroError : Exn := ⟨.runtime_error, msgDivZero⟩

/-- The exception for `s` on a negative number: the spec's `NegativeSqrtError`. -/
def NegativeSqrtError : Exn := ⟨.runtime_error, msgNegSqrt⟩

/-- The exception for a token longer or shorter than one character: one of the
two forms of the spec's `InvalidOperatorError`. -/
def MultiCharOperatorError : Exn := ⟨.invalid_argument, msgMultiChar⟩

/-- The exception for an unknown one-character operator: the other form of the
spec's `InvalidOperatorError`. -/
def UnknownOperatorError (operation : String) : Exn :=
  ⟨.invalid_argument, msgBadOp operation⟩

/-- The exception for a final stack size other than one: the spec's
`MalformedExpressionError`. -/
def MalformedExpressionError (size : Nat) : Exn :=
  ⟨.runtime_error, msgMalformed size⟩

/-- The exception for a negative Fibonacci index: the spec's
`NegativeIndexError`. -/
def NegativeIndexError : Exn := ⟨.invalid_argument, msgNegIndex⟩

/-! ## Arithmetic -/

/-- The type `double` as the program uses it: the operations of lines 53-77,
the two tests `b == 0` and `b < 0`, the conversion `static_cast<int>`, the
conversion of an integer constant to `double`, and `std::stod`. -/
structure Arith (D : Type) where
  /-- The sum `a + b`. -/
  add : D → D → D
  /-- The difference `a - b`. -/
  sub : D → D → D
  /-- The product `a * b`. -/
  mul : D → D → D
  /-- The quotient `a / b`. -/
  div : D → D → D
  /-- The power `pow(a, b)`. -/
  pow : D → D → D
  /-- The square root `sqrt(b)`. -/
  sqrt : D → D
  /-- The test `b == 0`. -/
  isZero : D → Bool
  /-- The test `b < 0`. -/
  isNeg : D → Bool
  /-- The conversion `static_cast<int>(v)`: truncation toward zero where the
  result fits in an `int`, and what the platform yields elsewhere. -/
  toInt : D → Int
  /-- The `double` of a natural number, as in `double a = 1` and `push(0)`. -/
  ofNat : Nat → D
  /-- The call `std::stod(token)`: the parsed value, or the exception it throws. -/
  stod : String → Except Exn D

/-! ## The class -/

/-- The data members of `RPNCalculator` (lines 13-14).  The head of `numStack`
is the top of the stack. -/
structure RPNCalculator (D : Type) where
  numStack : List D
  lastError : String
  deriving DecidableEq, Repr

variable {D : Type}

/-- The constructor (line 18): empty stack, empty error string. -/
def RPNCalculator.new : RPNCalculator D := ⟨[], ""⟩

/-- The member `push` (lines 21-24). -/
def push (value : D) (s : RPNCalculator D) : RPNCalculator D :=
  ⟨value :: s.numStack, ""⟩

/-- The member `pop` (lines 27-36). -/
def pop (s : RPNCalculator D) : Except Exn D × RPNCalculator D :=
  match s.numStack with
  | [] => (.error ⟨.runtime_error, msgEmptyStack⟩, ⟨[], msgEmptyStack⟩)
  | topVal :: rest => (.ok topVal, ⟨rest, ""⟩)

/-- The `switch` of `calculate` and what follows it (lines 51-85), after both
operands have been popped: `s` is the state after the second `pop`. -/
def applyOp (A : Arith D) (operation : String) (op : Char) (a b : D)
    (s : RPNCalculator D) : Except Exn Unit × RPNCalculator D :=
  if op = '+' then (.ok (), push (A.add a b) s)
  else if op = '-' then (.ok (), push (A.sub a b) s)
  else if op = '*' then (.ok (), push (A.mul a b) s)
  else if op = '/' then
    if A.isZero b then (.error ⟨.runtime_error, msgDivZero⟩, ⟨s.numStack, msgDivZero⟩)
    else (.ok (), push (A.div a b) s)
  else if op = '^' then (.ok (), push (A.pow a b) s)
  else if op = 's' then
    if A.isNeg b then
      (.error ⟨.runtime_error, msgNegSqrt⟩, ⟨(push a s).numStack, msgNegSqrt⟩)
    else (.ok (), push (A.sqrt b) (push a s))
  else (.error ⟨.invalid_argument, msgBadOp operation⟩, ⟨s.numStack, msgBadOp operation⟩)

/-- The member `calculate` (lines 39-89), the spec's `applyOperator`.  The token has size
one exactly when its list of characters is `[op]`, and then `op` is
`operation[0]`. -/
def calculate (A : Arith D) (operation : String) (s : RPNCalculator D) :
    Except Exn Unit × RPNCalculator D :=
  match operation.data with
  | [op] =>
    match pop s with
    | (.error e, s1) => (.error e, s1)
    | (.ok b, s1) =>
      match pop s1 with
      | (.error e, s2) => (.error e, s2)
      | (.ok a, s2) => applyOp A operation op a b s2
  | _ => (.error ⟨.invalid_argument, msgMultiChar⟩, ⟨s.numStack, msgMultiChar⟩)

/-- The loop of `clearStack` (lines 148-150): `numStack.pop()` as long as the
stack is not empty. -/
def clearLoop : List D → List D
  | [] => []
  | _ :: rest => clearLoop rest

/-- The member `clearStack` (lines 147-152). -/
def clearStack (s : RPNCalculator D) : RPNCalculator D := ⟨clearLoop s.numStack, ""⟩

/-- The member `getLastError` (lines 177-179), the spec's `lastErrorMessage`. -/
def getLastError (s : RPNCalculator D) : String := s.lastError

/-! ### Tokens -/

/-- The function `isspace` in the "C" locale: space, `\t`, `\n`, `\v`, `\f`, `\r`. -/
def isspace (c : Char) : Bool :=
  c = ' ' || (9 ≤ c.toNat && c.toNat ≤ 13)

/-- The function `isdigit`: `'0'` to `'9'`. -/
def isdigit (c : Char) : Bool :=
  48 ≤ c.toNat && c.toNat ≤ 57

/-- The tokens that `iss >> token` yields one after the other (line 98): the
maximal runs of characters that are not white space.  `cur` is the token under
construction, last character first. -/
def tokenizeAux : List Char → List Char → List String
  | [], cur => if cur.isEmpty then [] else [String.mk cur.reverse]
  | c :: cs, cur =>
    if isspace c then
      if cur.isEmpty then tokenizeAux cs [] else String.mk cur.reverse :: tokenizeAux cs []
    else tokenizeAux cs (c :: cur)

/-- The sequence of tokens of an expression. -/
def tokenize (expression : String) : List String :=
  tokenizeAux expression.data []

/-- The `for` loop of lines 110-121 from index `i` on: `cs` are the characters
`token[i..]`, `dotCount` the dots seen so far; the value is `isNumber` at the
end of the loop. -/
def scanNumber : List Char → Nat → Bool
  | [], _ => true
  | c :: cs, dotCount =>
    if c = '.' then
      if dotCount + 1 > 1 then false else scanNumber cs (dotCount + 1)
    else if !isdigit c then false
    else scanNumber cs dotCount

/-- The classification of a token (lines 100-121): `isNumber` after the loop. -/
def isNumber (token : String) : Bool :=
  let startIdx := if token.data.head? = some '-' ∧ token.data.length > 1 then 1 else 0
  scanNumber (token.data.drop startIdx) 0

/-- The body of the `while` loop (lines 99-130) for one token. -/
def processToken (A : Arith D) (token : String) (s : RPNCalculator D) :
    Except Exn Unit × RPNCalculator D :=
  if isNumber token then
    match A.stod token with
    | .error e => (.error e, s)
    | .ok num => (.ok (), push num s)
  else calculate A token s

/-- The `while` loop (lines 98-131) over the tokens still to be read: it stops
at the first exception. -/
def processTokens (A : Arith D) : List String → RPNCalculator D →
    Except Exn Unit × RPNCalculator D
  | [], s => (.ok (), s)
  | token :: rest, s =>
    match processToken A token s with
    | (.error e, s1) => (.error e, s1)
    | (.ok (), s1) => processTokens A rest s1

/-- The member `processExpression` (lines 92-144). -/
def processExpression (A : Arith D) (expression : String) (s : RPNCalculator D) :
    Except Exn D × RPNCalculator D :=
  match processTokens A (tokenize expression) ⟨s.numStack, ""⟩ with
  | (.error e, s1) => (.error e, clearStack s1)
  | (.ok (), s1) =>
    match s1.numStack with
    | [result] => (.ok result, s1)
    | stack =>
      (.error ⟨.runtime_error, msgMalformed stack.length⟩,
        clearStack ⟨stack, msgMalformed stack.length⟩)

/-! ### Fibonacci -/

/-- The loop of lines 200-204 with the counter at `i`; `fuel` bounds the number
of iterations still to run.  The counter is an unbounded integer: `++i` stays
within `int` for every `n` below `INT_MAX`. -/
def fibLoop (A : Arith D) (n : Int) : Nat → Int → D → D → D
  | 0, _, _, b => b
  | fuel + 1, i, a, b =>
    if i ≤ n then fibLoop A n fuel (i + 1) b (A.add a b) else b

/-- The member `fibonacci` (lines 182-210).  The loop runs for `i = 3, ..., n`, so `n - 2`
iterations are enough fuel. -/
def fibonacci (A : Arith D) (s : RPNCalculator D) : Except Exn D × RPNCalculator D :=
  match pop s with
  | (.error e, s1) => (.error e, s1)
  | (.ok v, s1) =>
    let n := A.toInt v
    if n < 0 then (.error ⟨.invalid_argument, msgNegIndex⟩, ⟨s1.numStack, msgNegIndex⟩)
    else if n = 0 then (.ok (A.ofNat 0), push (A.ofNat 0) s1)
    else if n = 1 ∨ n = 2 then (.ok (A.ofNat 1), push (A.ofNat 1) s1)
    else
      let b := fibLoop A n (n - 2).toNat 3 (A.ofNat 1) (A.ofNat 1)
      (.ok b, push b s1)

/-! ## The binary operators `+ - * /` -/

/-- The four arithmetic operators of the spec's table. -/
inductive BinOp where
  | plus
  | minus
  | times
  | divide
  deriving DecidableEq, Repr

/-- The token of an operator. -/
def BinOp.token : BinOp → String
  | .plus => "+"
  | .minus => "-"
  | .times => "*"
  | .divide => "/"

/-- The result column of the spec's table: `a op b`, with `a` the left operand. -/
def BinOp.apply (A : Arith D) : BinOp → D → D → D
  | .plus, a, b => A.add a b
  | .minus, a, b => A.sub a b
  | .times, a, b => A.mul a b
  | .divide, a, b => A.div a b

/-! ## Expression trees -/

/-- An arithmetic expression: a numeric literal, given by its token, or a
binary operator applied to two expressions. -/
inductive Expr where
  | lit (token : String)
  | node (op : BinOp) (left right : Expr)
  deriving Repr

/-- The tokens of an expression in postfix order: left operand, right operand,
operator. -/
def Expr.rpn : Expr → List String
  | .lit token => [token]
  | .node op left right => left.rpn ++ right.rpn ++ [op.token]

/-- The characters of a sequence of tokens written with one space between
consecutive tokens. -/
def joinTokens : List String → List Char
  | [] => []
  | [token] => token.data
  | token :: rest => token.data ++ ' ' :: joinTokens rest

/-- The postfix rendering of an expression. -/
def Expr.render (e : Expr) : String := String.mk (joinTokens e.rpn)

/-- Every literal of the expression is a non-empty token that the calculator
classifies as a number. -/
def Expr.literalsNumeric : Expr → Bool
  | .lit token => !token.data.isEmpty && isNumber token
  | .node _ left right => left.literalsNumeric && right.literalsNumeric

/-- The value of an expression: the literals are read by `stod`, the operators
are those of the arithmetic, and there is no value when a literal cannot be
read or when a divisor is zero. -/
def Expr.value (A : Arith D) : Expr → Option D
  | .lit token =>
    match A.stod token with
    | .ok v => some v
    | .error _ => none
  | .node op left right =>
    match left.value A, right.value A with
    | some a, some b =>
      if op = .divide ∧ A.isZero b = true then none else some (op.apply A a b)
    | _, _ => none

/-! ## The Fibonacci numbers -/

/-- The sequence `F` of the spec: `F(0) = 0`, `F(1) = F(2) = 1` and
`F(n) = F(n-1) + F(n-2)` for `n ≥ 3`. -/
def fibSeq : Nat → Nat
  | 0 => 0
  | 1 => 1
  | 2 => 1
  | n + 3 => fibSeq (n + 2) + fibSeq (n + 1)

/-! ## Exact arithmetic -/

/-- The natural number that a string of decimal digits denotes, after the
digits already read into `acc`. -/
def digitsValue : List Char → Nat → Nat
  | [], acc => acc
  | c :: cs, acc => digitsValue cs (acc * 10 + (c.toNat - 48))

/-- The function `std::stod` in exact arithmetic, for the decimal forms that can
reach it: optional white space, an optional sign, digits, and an optional `.`
followed by digits.  With no digit at all there is no conversion and `stod`
throws `invalid_argument`; characters after the number are ignored. -/
def stodExact (token : String) : Except Exn ℚ :=
  let cs := token.data.dropWhile isspace
  let neg := cs.head? = some '-'
  let cs1 := if cs.head? = some '-' ∨ cs.head? = some '+' then cs.tail else cs
  let ip := cs1.takeWhile isdigit
  let fp := match cs1.dropWhile isdigit with
    | '.' :: r => r.takeWhile isdigit
    | _ => []
  if ip.isEmpty ∧ fp.isEmpty then .error ⟨.invalid_argument, "stod"⟩
  else
    let m : ℚ := (digitsValue (ip ++ fp) 0 : ℚ) / (10 : ℚ) ^ fp.length
    .ok (if neg then -m else m)

/-- Exact arithmetic on the rational numbers: `+ - * /` are the field
operations, the conversion to `int` truncates toward zero, `stod` yields the
decimal value of the token.  `sqrt` is exact on the squares of rationals and
`pow` on integer exponents (elsewhere the result is not rational, and the value
here is a rational approximation). -/
def exactArith : Arith ℚ where
  add a b := a + b
  sub a b := a - b
  mul a b := a * b
  div a b := a / b
  pow a b := a ^ b.floor
  sqrt b := (Nat.sqrt (b.num.natAbs * b.den) : ℚ) / b.den
  isZero b := decide (b = 0)
  isNeg b := decide (b < 0)
  toInt v := Int.tdiv v.num v.den
  ofNat n := n
  stod := stodExact


/-! ## Operators, classification and counting -/

/-- The characters that the `switch` of `calculate` knows (lines 52-71). -/
def operatorChars : List Char := ['+', '-', '*', '/', '^', 's']

/-- The classification rule of the spec: after one leading `-` of a token of
more than one character, every character is a decimal digit or `.`, and there
is at most one `.`. -/
def isNumericLiteral (token : String) : Bool :=
  let body :=
    if token.data.head? = some '-' ∧ token.data.length > 1 then token.data.tail
    else token.data
  body.all (fun c => isdigit c || c = '.') && decide (body.count '.' ≤ 1)

/-- The number of tokens that the calculator classifies as numbers. -/
def numericCount (tokens : List String) : Nat :=
  (tokens.filter isNumber).length

/-- The number of operator tokens other than `s`. -/
def loweringCount (tokens : List String) : Nat :=
  (tokens.filter (fun token => !isNumber token && token != "s")).length

/-! ## Decimal literals and the range of `double` -/

theorem clearLoop_eq_nil (stack : List D) : clearLoop stack = [] := by
  induction stack with
  | nil => rfl
  | cons _ rest ih => simpa [clearLoop] using ih

theorem clearStack_eq (s : RPNCalculator D) : clearStack s = ⟨[], ""⟩ := by
  simp [clearStack, clearLoop_eq_nil]


theorem processTokens_append (A : Arith D) (pre post : List String) (s : RPNCalculator D) :
    processTokens A (pre ++ post) s =
      match processTokens A pre s with
      | (.error e, s1) => (.error e, s1)
      | (.ok (), s1) => processTokens A post s1 := by
  induction pre generalizing s with
  | nil => simp [processTokens]
  | cons t ts ih =>
    simp only [List.cons_append, processTokens]
    rcases processToken A t s with ⟨(e | u), s1⟩
    · simp
    · simp [ih]

theorem isNumber_binop (op : BinOp) : isNumber op.token = false := by
  cases op <;> decide

theorem calculate_binop (A : Arith D) (op : BinOp) (a b : D) (rest : List D) (err : String)
    (h : op = .divide → A.isZero b = false) :
    calculate A op.token ⟨b :: a :: rest, err⟩ =
      (.ok (), ⟨op.apply A a b :: rest, ""⟩) := by
  cases op <;> simp_all [calculate, BinOp.token, pop, applyOp, push, BinOp.apply]

/-- Claim C2: whenever `processExpression` fails, whatever the reason, the
initial stack and the expression, the stack is empty afterwards. -/
theorem processExpression_failure_empties_stack (A : Arith D) (expression : String)
    (s : RPNCalculator D) (e : Exn)
    (h : (processExpression A expression s).1 = .error e) :
    (processExpression A expression s).2.numStack = [] := by
  unfold processExpression at *
  generalize processTokens A (tokenize expression) ⟨s.numStack, ""⟩ = r at *
  rcases r with ⟨(e1 | u), s1⟩
  · simp [clearStack_eq]
  · rcases s1 with ⟨stack, err⟩
    rcases stack with _ | ⟨x, _ | ⟨y, l⟩⟩ <;> simp_all [clearStack_eq]

theorem processExpression_failure_empties_stack_witness :
    (processExpression exactArith "7 8 9 4 0 /" ⟨[1, 2, 3], "x"⟩).1 = .error DivisionByZeroError ∧
    (processExpression exactArith "7 8 9 4 0 /" ⟨[1, 2, 3], "x"⟩).2.numStack = [] :=
  ⟨by simp [processExpression, tokenize, tokenizeAux, isspace, processTokens, processToken,
        isNumber, scanNumber, isdigit, exactArith, stodExact, digitsValue, push, calculate, pop,
        applyOp, DivisionByZeroError, clearStack_eq],
   processExpression_failure_empties_stack exactArith "7 8 9 4 0 /" ⟨[1, 2, 3], "x"⟩
     DivisionByZeroError
     (by simp [processExpression, tokenize, tokenizeAux, isspace, processTokens, processToken,
        isNumber, scanNumber, isdigit, exactArith, stodExact, digitsValue, push, calculate, pop,
        applyOp, DivisionByZeroError, clearStack_eq])⟩

/-- Claim C3: whenever `processExpression` succeeds, the stack afterwards holds
exactly one element, and that element is the returned value. -/
theorem processExpression_success_single_result (A : Arith D) (expression : String)
    (s : RPNCalculator D) (r : D)
    (h : (processExpression A expression s).1 = .ok r) :
    (processExpression A expression s).2.numStack = [r] := by
  unfold processExpression at *
  generalize processTokens A (tokenize expression) ⟨s.numStack, ""⟩ = res at *
  rcases res with ⟨(e1 | u), s1⟩
  · simp at h
  · rcases s1 with ⟨stack, err⟩
    rcases stack with _ | ⟨x, _ | ⟨y, l⟩⟩ <;> simp_all

theorem processExpression_success_single_result_witness :
    (processExpression exactArith "3 4 +" ⟨[], "x"⟩).1 = .ok 7 ∧
    (processExpression exactArith "3 4 +" ⟨[], "x"⟩).2.numStack = [7] :=
  have h : (processExpression exactArith "3 4 +" ⟨[], "x"⟩).1 = .ok 7 := by
    simp [processExpression, tokenize, tokenizeAux, isspace, processTokens, processToken,
      isNumber, scanNumber, isdigit, exactArith, stodExact, digitsValue, push, calculate, pop,
      applyOp]
    norm_num
  ⟨h, processExpression_success_single_result exactArith "3 4 +" ⟨[], "x"⟩ 7 h⟩

/-- Claim C4: when every token is processed without failure and the number `k`
of values left on the stack is not one, `processExpression` fails with
`MalformedExpressionError`, the message reports `k` in decimal, and the stack is
empty afterwards. -/
theorem processExpression_malformed (A : Arith D) (expression : String)
    (s s1 : RPNCalculator D) (k : Nat)
    (hloop : processTokens A (tokenize expression) ⟨s.numStack, ""⟩ = (.ok (), s1))
    (hk : s1.numStack.length = k) (hne : k ≠ 1) :
    processExpression A expression s =
      (.error ⟨.runtime_error, "错误：表达式格式无效，栈中剩余 " ++ toString k ++ " 个数字"⟩,
        ⟨[], ""⟩) ∧
    (processExpression A expression s).1 = .error (MalformedExpressionError k) ∧
    (processExpression A expression s).2.numStack = [] := by
  subst hk
  rcases s1 with ⟨stack, err⟩
  unfold processExpression
  rw [hloop]
  rcases stack with _ | ⟨x, _ | ⟨y, l⟩⟩ <;>
    simp_all [clearStack_eq, MalformedExpressionError, msgMalformed]

theorem processExpression_malformed_witness :
    processExpression exactArith "1 2" .new =
      (.error ⟨.runtime_error, "错误：表达式格式无效，栈中剩余 " ++ toString 2 ++ " 个数字"⟩,
        ⟨[], ""⟩) ∧
    (processExpression exactArith "1 2" .new).1 = .error (MalformedExpressionError 2) ∧
    (processExpression exactArith "1 2" .new).2.numStack = [] :=
  processExpression_malformed exactArith "1 2" .new ⟨[2, 1], ""⟩ 2
    (by simp [tokenize, tokenizeAux, isspace, processTokens, processToken, isNumber,
          scanNumber, isdigit, exactArith, stodExact, digitsValue, push, RPNCalculator.new])
    (by simp) (by decide)

/-- An expression with no token, on an empty stack, is reported with count 0. -/
theorem processExpression_no_token :
    processExpression exactArith "  " .new = (.error (MalformedExpressionError 0), ⟨[], ""⟩) ∧
    (MalformedExpressionError 0).what = "错误：表达式格式无效，栈中剩余 0 个数字" := by
  constructor
  · simp [processExpression, tokenize, tokenizeAux, isspace, processTokens, clearStack_eq,
      RPNCalculator.new, MalformedExpressionError]
  · decide

/-- Claim C5: on a stack with `b` on top and `a` right below it, each of
`+ - * /` (for `/`, when the test `b == 0` fails) succeeds and replaces the two
by `a op b`, `a` being the left operand; nothing below them changes. -/
theorem calculate_binary_operator (A : Arith D) (op : BinOp) (a b : D) (rest : List D)
    (err : String) (h : op = .divide → A.isZero b = false) :
    calculate A op.token ⟨b :: a :: rest, err⟩ =
      (.ok (), ⟨op.apply A a b :: rest, ""⟩) :=
  calculate_binop A op a b rest err h

theorem calculate_binary_operator_witness :
    calculate exactArith "-" ⟨[3, 5, 8], ""⟩ = (.ok (), ⟨[2, 8], ""⟩) := by
  have h := calculate_binary_operator exactArith .minus 5 3 [8] "" (by simp)
  have e : BinOp.apply exactArith .minus 5 3 = 2 := by simp [BinOp.apply, exactArith]; norm_num
  rw [e] at h
  exact h

/-- Claim C6: on a stack of at least two elements whose top `b` passes the test
`b == 0`, `calculate "/"` throws `DivisionByZeroError` and pushes nothing; and
`processExpression` of an expression whose tokens reach a `/` in such a state
fails with `DivisionByZeroError` and leaves the stack empty. -/
theorem division_by_zero (A : Arith D) (a b : D) (rest : List D) (err : String)
    (hb : A.isZero b = true) :
    calculate A "/" ⟨b :: a :: rest, err⟩ = (.error DivisionByZeroError, ⟨rest, msgDivZero⟩) ∧
    ∀ (expression : String) (s : RPNCalculator D) (pre post : List String),
      tokenize expression = pre ++ "/" :: post →
      processTokens A pre ⟨s.numStack, ""⟩ = (.ok (), ⟨b :: a :: rest, err⟩) →
      processExpression A expression s = (.error DivisionByZeroError, ⟨[], ""⟩) := by
  have hc : calculate A "/" ⟨b :: a :: rest, err⟩ =
      (.error DivisionByZeroError, ⟨rest, msgDivZero⟩) := by
    simp [calculate, pop, applyOp, hb, DivisionByZeroError]
  refine ⟨hc, ?_⟩
  intro expression s pre post htok hpre
  have hnum : isNumber "/" = false := by decide
  simp [processExpression, htok, processTokens_append, hpre, processTokens, processToken,
    hnum, hc, clearStack_eq]

theorem division_by_zero_witness :
    calculate exactArith "/" ⟨[0, 4], ""⟩ = (.error DivisionByZeroError, ⟨[], msgDivZero⟩) ∧
    processExpression exactArith "4 0 /" .new = (.error DivisionByZeroError, ⟨[], ""⟩) :=
  have h := division_by_zero exactArith 4 0 [] "" (by simp [exactArith])
  ⟨h.1, h.2 "4 0 /" .new ["4", "0"] [] (by decide)
    (by simp [processTokens, processToken, isNumber, scanNumber, isdigit, isspace, exactArith,
          stodExact, digitsValue, push, RPNCalculator.new])⟩

/-- Claim C7: on a stack with `b` on top and `a` right below it, when the test
`b < 0` fails, `calculate "s"` succeeds and leaves `sqrt(b)` on top with `a`
unchanged right below it and the rest unchanged: the depth does not change. -/
theorem calculate_sqrt (A : Arith D) (a b : D) (rest : List D) (err : String)
    (hb : A.isNeg b = false) :
    calculate A "s" ⟨b :: a :: rest, err⟩ = (.ok (), ⟨A.sqrt b :: a :: rest, ""⟩) ∧
    (calculate A "s" ⟨b :: a :: rest, err⟩).2.numStack.length = (b :: a :: rest).length := by
  simp [calculate, pop, applyOp, hb, push]

theorem calculate_sqrt_witness :
    exactArith.sqrt 4 = 2 ∧
    calculate exactArith "s" ⟨[4, 9, 1], ""⟩ = (.ok (), ⟨[exactArith.sqrt 4, 9, 1], ""⟩) :=
  have h : Nat.sqrt 4 = 2 := by simp [Nat.sqrt, Nat.sqrt.iter]
  ⟨by simp [exactArith, h], (calculate_sqrt exactArith 9 4 [1] "" (by simp [exactArith])).1⟩

theorem fibSeq_mono_succ : ∀ i : Nat, 1 ≤ i → fibSeq i ≤ fibSeq (i + 1)
  | 0, h => by omega
  | 1, _ => by simp [fibSeq]
  | 2, _ => by simp [fibSeq]
  | i + 3, _ => by
    show fibSeq (i + 3) ≤ fibSeq (i + 3) + fibSeq (i + 2)
    omega

theorem fibSeq_mono (i n : Nat) (hi : 1 ≤ i) (h : i ≤ n) : fibSeq i ≤ fibSeq n := by
  induction n with
  | zero => omega
  | succ n ih =>
    rcases Nat.lt_or_ge i (n + 1) with hlt | hge
    · exact Nat.le_trans (ih (by omega)) (fibSeq_mono_succ n (by omega))
    · have : i = n + 1 := by omega
      subst this
      exact Nat.le_refl _

theorem fibLoop_spec (A : Arith D) (N : Nat)
    (hadd : ∀ x y : Nat, x + y ≤ fibSeq N → A.add (A.ofNat x) (A.ofNat y) = A.ofNat (x + y)) :
    ∀ (fuel i : Nat), 3 ≤ i → i + fuel = N + 1 →
      fibLoop A (N : Int) fuel (i : Int) (A.ofNat (fibSeq (i - 2))) (A.ofNat (fibSeq (i - 1)))
        = A.ofNat (fibSeq N) := by
  intro fuel
  induction fuel with
  | zero =>
    intro i _ hi
    have : i - 1 = N := by omega
    simp [fibLoop, this]
  | succ fuel ih =>
    intro i h3 hi
    have hle : (i : Int) ≤ (N : Int) := by omega
    obtain ⟨j, rfl⟩ : ∃ j, i = j + 3 := ⟨i - 3, by omega⟩
    have hstep : fibSeq (j + 3 - 2) + fibSeq (j + 3 - 1) = fibSeq (j + 3) := by
      show fibSeq (j + 1) + fibSeq (j + 2) = fibSeq (j + 2) + fibSeq (j + 1)
      omega
    have hbound : fibSeq (j + 3 - 2) + fibSeq (j + 3 - 1) ≤ fibSeq N := by
      rw [hstep]
      exact fibSeq_mono _ _ (by omega) (by omega)
    have hnext := ih (j + 3 + 1) (by omega) (by omega)
    simp only [fibLoop, hle, if_true, hadd _ _ hbound, hstep]
    have e1 : j + 3 + 1 - 2 = j + 3 - 1 := by omega
    have e2 : j + 3 + 1 - 1 = j + 3 := by omega
    rw [e1, e2] at hnext
    exact_mod_cast hnext

theorem fibonacci_value (A : Arith D) (v : D) (rest : List D) (err : String)
    (hn : 0 ≤ A.toInt v)
    (hadd : ∀ x y : Nat, x + y ≤ fibSeq (A.toInt v).toNat →
      A.add (A.ofNat x) (A.ofNat y) = A.ofNat (x + y)) :
    fibonacci A ⟨v :: rest, err⟩ =
      (.ok (A.ofNat (fibSeq (A.toInt v).toNat)),
        ⟨A.ofNat (fibSeq (A.toInt v).toNat) :: rest, ""⟩) := by
  obtain ⟨N, hN⟩ : ∃ N : Nat, A.toInt v = (N : Int) := ⟨(A.toInt v).toNat, by omega⟩
  rw [hN] at hadd
  simp only [Int.toNat_ofNat] at hadd
  simp only [fibonacci, pop, hN, Int.toNat_ofNat, push]
  rcases N with _ | _ | _ | N
  · simp [fibSeq]
  · simp [fibSeq]
  · simp [fibSeq]
  · have hloop := fibLoop_spec A (N + 3) hadd (N + 1) 3 (by omega) (by omega)
    have hneg : ¬ ((N + 3 : Nat) : Int) < 0 := by omega
    have h0 : ¬ ((N + 3 : Nat) : Int) = 0 := by omega
    have h12 : ¬ (((N + 3 : Nat) : Int) = 1 ∨ ((N + 3 : Nat) : Int) = 2) := by omega
    have hfuel : (((N + 3 : Nat) : Int) - 2).toNat = N + 1 := by omega
    simp only [hneg, h0, h12, if_false, hfuel]
    have e : fibLoop A ((N + 3 : Nat) : Int) (N + 1) 3 (A.ofNat 1) (A.ofNat 1) =
        A.ofNat (fibSeq (N + 3)) := by
      simpa [fibSeq] using hloop
    rw [e]

/-- In exact arithmetic, whenever the top value truncates to `n ≥ 0`, `fibonacci`
returns `F(n)` and replaces the top of the stack by it. -/
theorem fibonacci_exactArith (v : ℚ) (rest : List ℚ) (err : String)
    (hn : 0 ≤ exactArith.toInt v) :
    fibonacci exactArith ⟨v :: rest, err⟩ =
      (.ok (fibSeq (exactArith.toInt v).toNat : ℚ),
        ⟨(fibSeq (exactArith.toInt v).toNat : ℚ) :: rest, ""⟩) :=
  fibonacci_value exactArith v rest err hn (by intro x y _; simp [exactArith])

/-- Claim C9: on a non-empty stack with top `v`, `fibonacci` fails with
`NegativeIndexError` exactly when the conversion `n` of `v` to `int` is
negative; then nothing is pushed, and the stack is the one before the call
without its top. -/
theorem fibonacci_negative_index (A : Arith D) (v : D) (rest : List D) (err : String) :
    ((fibonacci A ⟨v :: rest, err⟩).1 = .error NegativeIndexError ↔ A.toInt v < 0) ∧
    (A.toInt v < 0 →
      fibonacci A ⟨v :: rest, err⟩ = (.error NegativeIndexError, ⟨rest, msgNegIndex⟩)) := by
  by_cases hneg : A.toInt v < 0
  · simp [fibonacci, pop, hneg, NegativeIndexError]
  · refine ⟨⟨fun h => ?_, fun h => absurd h hneg⟩, fun h => absurd h hneg⟩
    simp only [fibonacci, pop] at h
    rw [if_neg hneg] at h
    split_ifs at h

theorem fibonacci_negative_index_witness :
    fibonacci exactArith (push (-1) .new) = (.error NegativeIndexError, ⟨[], msgNegIndex⟩) :=
  (fibonacci_negative_index exactArith (-1) [] "").2 (by simp [exactArith])

/-! ### Tokenizing a rendering -/

theorem tokenizeAux_token (cs rest cur : List Char) (h : ∀ c ∈ cs, isspace c = false) :
    tokenizeAux (cs ++ rest) cur = tokenizeAux rest (cs.reverse ++ cur) := by
  induction cs generalizing cur with
  | nil => rfl
  | cons c cs ih =>
    have hc : isspace c = false := h c (List.mem_cons_self _ _)
    have hcs : ∀ d ∈ cs, isspace d = false := fun d hd => h d (List.mem_cons_of_mem _ hd)
    simp [tokenizeAux, hc, ih _ hcs]

theorem tokenizeAux_joinTokens (tokens : List String)
    (h : ∀ t ∈ tokens, t.data ≠ [] ∧ ∀ c ∈ t.data, isspace c = false) :
    tokenizeAux (joinTokens tokens) [] = tokens := by
  induction tokens with
  | nil => rfl
  | cons t ts ih =>
    obtain ⟨hne, hsp⟩ := h t (List.mem_cons_self _ _)
    have hts : ∀ u ∈ ts, u.data ≠ [] ∧ ∀ c ∈ u.data, isspace c = false :=
      fun u hu => h u (List.mem_cons_of_mem _ hu)
    cases ts with
    | nil =>
      have := tokenizeAux_token t.data [] [] hsp
      simp only [List.append_nil] at this
      simp [joinTokens, this, tokenizeAux, hne]
    | cons u us =>
      have hsp0 : isspace ' ' = true := by decide
      have := tokenizeAux_token t.data (' ' :: joinTokens (u :: us)) [] hsp
      simp only [List.append_nil] at this
      simp [joinTokens, this, tokenizeAux, hsp0, hne, ih hts]

theorem isspace_false_of_isdigit (c : Char) (h : isdigit c = true) : isspace c = false := by
  simp only [isdigit, Bool.and_eq_true, decide_eq_true_eq] at h
  have hne : c ≠ ' ' := by
    rintro rfl
    revert h
    decide
  simp only [isspace, Bool.or_eq_false_iff, decide_eq_false_iff_not, Bool.and_eq_false_iff]
  exact ⟨hne, Or.inr (by omega)⟩

theorem scanNumber_no_space (cs : List Char) (k : Nat) (h : scanNumber cs k = true) :
    ∀ c ∈ cs, isspace c = false := by
  induction cs generalizing k with
  | nil => simp
  | cons d ds ih =>
    intro c hc
    simp only [scanNumber] at h
    by_cases hd : d = '.'
    · subst hd
      simp only [if_true] at h
      split_ifs at h
      rcases List.mem_cons.mp hc with rfl | hmem
      · decide
      · exact ih _ h c hmem
    · simp only [hd, if_false] at h
      split_ifs at h with hdig
      rcases List.mem_cons.mp hc with rfl | hmem
      · exact isspace_false_of_isdigit _ (by simpa using hdig)
      · exact ih _ h c hmem

theorem isNumber_no_space (token : String) (h : isNumber token = true) :
    ∀ c ∈ token.data, isspace c = false := by
  unfold isNumber at h
  simp only at h
  split_ifs at h with hminus
  · obtain ⟨hhead, _⟩ := hminus
    rcases hd : token.data with _ | ⟨d, ds⟩
    · simp
    · rw [hd] at hhead h
      simp only [List.head?_cons, Option.some.injEq] at hhead
      subst hhead
      intro c hc
      rcases List.mem_cons.mp hc with rfl | hmem
      · decide
      · exact scanNumber_no_space ds 0 (by simpa using h) c hmem
  · exact scanNumber_no_space _ 0 (by simpa using h)

theorem binop_token_no_space (op : BinOp) :
    op.token.data ≠ [] ∧ ∀ c ∈ op.token.data, isspace c = false := by
  cases op <;> exact ⟨by decide, by decide⟩

theorem literalsNumeric_lit (token : String) (h : (Expr.lit token).literalsNumeric = true) :
    token.data ≠ [] ∧ isNumber token = true := by
  simpa [Expr.literalsNumeric] using h

theorem literalsNumeric_node (op : BinOp) (l r : Expr)
    (h : (Expr.node op l r).literalsNumeric = true) :
    l.literalsNumeric = true ∧ r.literalsNumeric = true := by
  simpa [Expr.literalsNumeric] using h

theorem rpn_tokens (e : Expr) (h : e.literalsNumeric = true) :
    ∀ t ∈ e.rpn, t.data ≠ [] ∧ ∀ c ∈ t.data, isspace c = false := by
  induction e with
  | lit token =>
    intro t ht
    simp only [Expr.rpn, List.mem_singleton] at ht
    subst ht
    have h := literalsNumeric_lit _ h
    exact ⟨h.1, isNumber_no_space _ h.2⟩
  | node op l r ihl ihr =>
    intro t ht
    have h := literalsNumeric_node op l r h
    simp only [Expr.rpn, List.mem_append, List.mem_singleton] at ht
    rcases ht with (ht | ht) | rfl
    · exact ihl h.1 t ht
    · exact ihr h.2 t ht
    · exact binop_token_no_space op

theorem tokenize_render (e : Expr) (h : e.literalsNumeric = true) :
    tokenize e.render = e.rpn :=
  tokenizeAux_joinTokens e.rpn (rpn_tokens e h)

/-! ### Evaluating a postfix sequence -/

theorem processTokens_rpn (A : Arith D) (e : Expr) (h : e.literalsNumeric = true) :
    ∀ (v : D) (stack : List D) (err : String), e.value A = some v →
      processTokens A e.rpn ⟨stack, err⟩ = (.ok (), ⟨v :: stack, ""⟩) := by
  induction e with
  | lit token =>
    intro v stack err hv
    have h := literalsNumeric_lit _ h
    simp only [Expr.value] at hv
    rcases hs : A.stod token with x | x
    · simp [hs] at hv
    · simp only [hs, Option.some.injEq] at hv
      subst hv
      simp [Expr.rpn, processTokens, processToken, h.2, hs, push]
  | node op l r ihl ihr =>
    intro v stack err hv
    have h := literalsNumeric_node op l r h
    simp only [Expr.value] at hv
    rcases hl : l.value A with _ | a
    · simp [hl] at hv
    rcases hr : r.value A with _ | b
    · simp [hl, hr] at hv
    simp only [hl, hr] at hv
    split_ifs at hv with hz
    simp only [Option.some.injEq] at hv
    subst hv
    have hdiv : op = .divide → A.isZero b = false := by
      intro hop
      by_contra hb
      exact hz ⟨hop, by simpa using hb⟩
    simp [Expr.rpn, processTokens_append, ihl h.1 a stack err hl, ihr h.2 b (a :: stack) "" hr,
      processTokens, processToken, isNumber_binop, calculate_binop A op a b stack "" hdiv]

theorem processExpression_of_tokens (A : Arith D) (e : Expr) (v : D) (expression err : String)
    (htok : tokenize expression = e.rpn)
    (hlit : e.literalsNumeric = true) (hv : e.value A = some v) :
    processExpression A expression ⟨[], err⟩ = (.ok v, ⟨[v], ""⟩) := by
  simp [processExpression, htok, processTokens_rpn A e hlit v [] "" hv]

theorem processExpression_render (A : Arith D) (e : Expr) (v : D) (err : String)
    (hlit : e.literalsNumeric = true) (hv : e.value A = some v) :
    processExpression A e.render ⟨[], err⟩ = (.ok v, ⟨[v], ""⟩) :=
  processExpression_of_tokens A e v e.render err (tokenize_render e hlit) hlit hv

/-- The second example of claim C1: `5 1 2 + 4 * + 3 -` is the postfix rendering
of `(5 + (1 + 2) * 4) - 3` and evaluates to 14. -/
theorem render_example_evaluates :
    (Expr.node .minus
      (.node .plus (.lit "5") (.node .times (.node .plus (.lit "1") (.lit "2")) (.lit "4")))
      (.lit "3")).render = "5 1 2 + 4 * + 3 -" ∧
    processExpression exactArith "5 1 2 + 4 * + 3 -" ⟨[], ""⟩ = (.ok 14, ⟨[14], ""⟩) :=
  ⟨by decide,
   processExpression_render exactArith
    (.node .minus
      (.node .plus (.lit "5") (.node .times (.node .plus (.lit "1") (.lit "2")) (.lit "4")))
      (.lit "3")) 14 ""
    (by decide)
    (by simp [Expr.value, exactArith, stodExact, isspace, isdigit, digitsValue, BinOp.apply]
        norm_num)⟩

/-- In exact arithmetic `stod` reads a decimal literal as its decimal value. -/
theorem stodExact_examples :
    stodExact "3.5" = .ok (7 / 2) ∧ stodExact "-.5" = .ok (-1 / 2) ∧
    stodExact "-3" = .ok (-3) ∧ stodExact "10." = .ok 10 ∧
    stodExact "." = .error ⟨.invalid_argument, "stod"⟩ ∧
    stodExact "-." = .error ⟨.invalid_argument, "stod"⟩ := by
  refine ⟨?_, ?_, ?_, ?_, ?_, ?_⟩ <;>
    simp [stodExact, isspace, isdigit, digitsValue] <;> norm_num

/-! ### The last error -/

theorem pop_lastError (s : RPNCalculator D) :
    (∀ e, (pop s).1 = .error e → getLastError (pop s).2 = e.what ∧ e.what ≠ "") ∧
    (∀ v, (pop s).1 = .ok v → getLastError (pop s).2 = "") := by
  rcases s with ⟨_ | ⟨x, l⟩, err⟩
  · refine ⟨fun e h => ?_, fun v h => ?_⟩
    · simp only [pop, Except.error.injEq] at h
      subst h
      exact ⟨rfl, by decide⟩
    · simp [pop] at h
  · simp [pop, getLastError]

/-- After a failing `fibonacci` the last error is the non-empty message of the
exception thrown, after a successful one it is empty. -/
theorem fibonacci_lastError (A : Arith D) (s : RPNCalculator D) :
    (∀ e, (fibonacci A s).1 = .error e →
      getLastError (fibonacci A s).2 = e.what ∧ e.what ≠ "") ∧
    (∀ r, (fibonacci A s).1 = .ok r → getLastError (fibonacci A s).2 = "") := by
  have h0 : msgNegIndex ≠ "" := by decide
  have h1 : msgEmptyStack ≠ "" := by decide
  rcases s with ⟨_ | ⟨v, l⟩, err⟩
  · refine ⟨fun e h => ?_, fun r h => ?_⟩ <;> simp_all [fibonacci, pop, getLastError]
    subst h; simp_all
  · simp only [fibonacci, pop]
    refine ⟨fun e h => ?_, fun r h => ?_⟩
    · split_ifs at h ⊢
      simp_all [getLastError, push]
      subst h; simp_all
    · split_ifs at h ⊢ <;> simp_all [getLastError, push]

/-- After `push` and after `clearStack` the last error is empty. -/
theorem push_clearStack_lastError (value : D) (s : RPNCalculator D) :
    getLastError (push value s) = "" ∧ getLastError (clearStack s) = "" :=
  ⟨rfl, rfl⟩

/-- After `processExpression` the last error is empty whenever the call fails:
the handler of line 141 calls `clearStack`, which resets it. -/
theorem processExpression_failure_lastError (A : Arith D) (expression : String)
    (s : RPNCalculator D) (e : Exn)
    (h : (processExpression A expression s).1 = .error e) :
    getLastError (processExpression A expression s).2 = "" := by
  unfold processExpression at *
  generalize processTokens A (tokenize expression) ⟨s.numStack, ""⟩ = r at *
  rcases r with ⟨(e1 | u), s1⟩
  · rfl
  · rcases s1 with ⟨stack, err⟩
    rcases stack with _ | ⟨x, _ | ⟨y, l⟩⟩ <;> simp_all [clearStack_eq, getLastError]

/-- Claim C10, at the expression `1 2` on a new calculator: `processExpression`
fails with a non-empty message, and right after the call `getLastError` returns
the empty string, not that message. -/
theorem processExpression_loses_lastError :
    (processExpression exactArith "1 2" .new).1 = .error (MalformedExpressionError 2) ∧
    (MalformedExpressionError 2).what ≠ "" ∧
    getLastError (processExpression exactArith "1 2" .new).2 = "" := by
  refine ⟨?_, by decide, ?_⟩ <;>
    simp [processExpression, tokenize, tokenizeAux, isspace, processTokens, processToken,
      isNumber, scanNumber, isdigit, exactArith, stodExact, digitsValue, push, clearStack_eq,
      RPNCalculator.new, MalformedExpressionError, getLastError]

/-! ### Operators on short stacks and invalid operators -/

theorem isNumber_operatorChar (c : Char) (hc : c ∈ operatorChars) :
    isNumber (String.mk [c]) = false := by
  simp only [operatorChars, List.mem_cons, List.mem_singleton, List.not_mem_nil, or_false] at hc
  rcases hc with rfl | rfl | rfl | rfl | rfl | rfl <;> decide

theorem calculate_short_stack (A : Arith D) (c : Char) (s : RPNCalculator D)
    (hs : s.numStack.length < 2) :
    calculate A (String.mk [c]) s = (.error EmptyStackError, ⟨[], msgEmptyStack⟩) := by
  rcases s with ⟨_ | ⟨x, _ | ⟨y, l⟩⟩, err⟩
  · simp [calculate, pop, EmptyStackError]
  · simp [calculate, pop, EmptyStackError]
  · simp only [List.length_cons] at hs
    omega

theorem processExpression_token_fails (A : Arith D) (expression : String)
    (s0 s s1 : RPNCalculator D) (pre post : List String) (token : String) (e : Exn)
    (htok : tokenize expression = pre ++ token :: post)
    (hpre : processTokens A pre ⟨s0.numStack, ""⟩ = (.ok (), s))
    (hfail : processToken A token s = (.error e, s1)) :
    processExpression A expression s0 = (.error e, ⟨[], ""⟩) := by
  simp [processExpression, htok, processTokens_append, hpre, processTokens, hfail,
    clearStack_eq]

/-- Claim C11: on a stack with fewer than two elements each of the operators
`+ - * / ^ s` fails with `EmptyStackError`, thrown by `pop` with its message
recorded as the last error; and `processExpression` of an expression whose
tokens reach such an operator in such a state fails with `EmptyStackError` and
leaves the stack empty. -/
theorem operator_needs_two_operands (A : Arith D) (c : Char) (hc : c ∈ operatorChars)
    (s : RPNCalculator D) (hs : s.numStack.length < 2) :
    (calculate A (String.mk [c]) s).1 = .error EmptyStackError ∧
    getLastError (calculate A (String.mk [c]) s).2 = EmptyStackError.what ∧
    ∀ (expression : String) (s0 : RPNCalculator D) (pre post : List String),
      tokenize expression = pre ++ String.mk [c] :: post →
      processTokens A pre ⟨s0.numStack, ""⟩ = (.ok (), s) →
      processExpression A expression s0 = (.error EmptyStackError, ⟨[], ""⟩) := by
  have hcalc := calculate_short_stack A c s hs
  refine ⟨by rw [hcalc], by rw [hcalc]; rfl, ?_⟩
  intro expression s0 pre post htok hpre
  refine processExpression_token_fails A expression s0 s ⟨[], msgEmptyStack⟩ pre post _ _
    htok hpre ?_
  simp [processToken, isNumber_operatorChar c hc, hcalc]

theorem operator_needs_two_operands_witness :
    (calculate exactArith "s" ⟨[4], ""⟩).1 = .error EmptyStackError ∧
    processExpression exactArith "+" .new = (.error EmptyStackError, ⟨[], ""⟩) :=
  have h := operator_needs_two_operands exactArith '+' (by decide) ⟨[], ""⟩ (by decide)
  ⟨(operator_needs_two_operands exactArith 's' (by decide) ⟨[4], ""⟩ (by decide)).1,
   h.2.2 "+" .new [] [] (by decide) (by simp [processTokens, RPNCalculator.new])⟩

theorem calculate_multi_char (A : Arith D) (operation : String) (s : RPNCalculator D)
    (h : operation.data.length ≠ 1) :
    calculate A operation s = (.error MultiCharOperatorError, ⟨s.numStack, msgMultiChar⟩) := by
  unfold calculate
  split
  · rename_i op hop
    simp [hop] at h
  · rfl

/-- Claim C13: for a token longer than one character `calculate` fails with
`InvalidOperatorError` (the multi-character form) on every stack, whatever the
characters of the token are; the stack is not touched. -/
theorem multi_char_token_rejected (A : Arith D) (operation : String) (s : RPNCalculator D)
    (h : 1 < operation.length) :
    calculate A operation s = (.error MultiCharOperatorError, ⟨s.numStack, msgMultiChar⟩) :=
  calculate_multi_char A operation s (by
    have : operation.length = operation.data.length := rfl
    omega)

theorem multi_char_token_rejected_witness :
    calculate exactArith "++" ⟨[1, 2], ""⟩ =
      (.error MultiCharOperatorError, ⟨[1, 2], msgMultiChar⟩) ∧
    calculate exactArith "--3" ⟨[], ""⟩ = (.error MultiCharOperatorError, ⟨[], msgMultiChar⟩) ∧
    isNumber "--3" = false :=
  ⟨multi_char_token_rejected exactArith "++" ⟨[1, 2], ""⟩ (by decide),
   multi_char_token_rejected exactArith "--3" ⟨[], ""⟩ (by decide), by decide⟩

theorem applyOp_unknown (A : Arith D) (operation : String) (c : Char) (a b : D)
    (s : RPNCalculator D) (hc : c ∉ operatorChars) :
    applyOp A operation c a b s =
      (.error (UnknownOperatorError operation), ⟨s.numStack, msgBadOp operation⟩) := by
  simp only [operatorChars, List.mem_cons, List.mem_singleton, List.not_mem_nil, or_false,
    not_or] at hc
  obtain ⟨h1, h2, h3, h4, h5, h6⟩ := hc
  simp [applyOp, h1, h2, h3, h4, h5, h6, UnknownOperatorError]

/-- Claim C12, as the code has it: for a one-character token whose character
is not one of `+ - * / ^ s`, on a stack of at least two elements `calculate`
fails with `InvalidOperatorError`, the message holding the token between single
quotes, and the two operands are gone; on a shorter stack it fails with
`EmptyStackError`, because both operands are popped before the `switch`. -/
theorem unknown_operator_rejected (A : Arith D) (c : Char) (hc : c ∉ operatorChars) :
    (∀ (a b : D) (rest : List D) (err : String),
      calculate A (String.mk [c]) ⟨b :: a :: rest, err⟩ =
        (.error (UnknownOperatorError (String.mk [c])), ⟨rest, msgBadOp (String.mk [c])⟩)) ∧
    (UnknownOperatorError (String.mk [c])).what =
      "错误：不支持的操作符 \x27" ++ String.mk [c] ++ "\x27" ∧
    (∀ s : RPNCalculator D, s.numStack.length < 2 →
      calculate A (String.mk [c]) s = (.error EmptyStackError, ⟨[], msgEmptyStack⟩)) := by
  refine ⟨fun a b rest err => ?_, rfl, fun s hs => calculate_short_stack A c s hs⟩
  simp [calculate, pop, applyOp_unknown A _ c a b _ hc]

theorem unknown_operator_rejected_witness :
    calculate exactArith "x" ⟨[1, 2, 3], ""⟩ =
      (.error (UnknownOperatorError "x"), ⟨[3], msgBadOp "x"⟩) ∧
    calculate exactArith "x" ⟨[1], ""⟩ = (.error EmptyStackError, ⟨[], msgEmptyStack⟩) :=
  have h := unknown_operator_rejected exactArith 'x' (by decide)
  ⟨h.1 2 1 [3] "", h.2.2 ⟨[1], ""⟩ (by decide)⟩

/-- Claim C12 fails on an empty stack: the unknown operator `x` is reported as
`EmptyStackError`, which is not `InvalidOperatorError`. -/
theorem unknown_operator_on_empty_stack :
    (calculate exactArith "x" ⟨[], ""⟩).1 = .error EmptyStackError ∧
    EmptyStackError ≠ UnknownOperatorError "x" ∧
    EmptyStackError ≠ MultiCharOperatorError := by
  refine ⟨?_, by decide, by decide⟩
  simp [calculate, pop, EmptyStackError]

theorem calculate_failure_stack (A : Arith D) (operation : String) (s : RPNCalculator D)
    (e : Exn) (h : (calculate A operation s).1 = .error e) :
    (operation.data.length ≠ 1 → (calculate A operation s).2.numStack = s.numStack) ∧
    (operation.data.length = 1 → e = NegativeSqrtError →
      (calculate A operation s).2.numStack = s.numStack.drop 1) ∧
    (operation.data.length = 1 → e ≠ NegativeSqrtError →
      (calculate A operation s).2.numStack = s.numStack.drop 2) := by
  have hd : DivisionByZeroError ≠ NegativeSqrtError := by decide
  have hu : ∀ t, UnknownOperatorError t ≠ NegativeSqrtError := by
    intro t ht
    have := congrArg Exn.cls ht
    simp [UnknownOperatorError, NegativeSqrtError] at this
  by_cases hlen : operation.data.length = 1
  · obtain ⟨op, hop⟩ : ∃ op, operation.data = [op] := List.length_eq_one.mp hlen
    refine ⟨fun hne => absurd hlen hne, ?_, ?_⟩
    · intro _ he
      rcases s with ⟨_ | ⟨b, _ | ⟨a, rest⟩⟩, err⟩
      · simp [calculate, hop, pop]
      · simp [calculate, hop, pop]
      · subst he
        simp only [calculate, hop, pop, applyOp] at h ⊢
        split_ifs at h ⊢ <;> simp_all [push, NegativeSqrtError, DivisionByZeroError]
    · intro _ he
      rcases s with ⟨_ | ⟨b, _ | ⟨a, rest⟩⟩, err⟩
      · simp [calculate, hop, pop]
      · simp [calculate, hop, pop]
      · simp only [calculate, hop, pop, applyOp] at h ⊢
        split_ifs at h ⊢ <;> simp_all [push, NegativeSqrtError]
  · have hc := calculate_multi_char A operation s hlen
    exact ⟨fun _ => by rw [hc], fun h1 => absurd h1 hlen, fun h1 => absurd h1 hlen⟩

/-- Claim C14, as the code has it: when `calculate` fails, the stack is the one
before the call (a) unchanged for a token that is not one character long, which
is rejected before any `pop`, (b) without its top only for a negative square
root, where line 72 has pushed `a` back, and (c) without its two top elements
(or empty, when it had fewer) in every other case: nothing is rolled back. -/
theorem failed_operator_stack (A : Arith D) (operation : String) (s : RPNCalculator D)
    (e : Exn) (h : (calculate A operation s).1 = .error e) :
    (operation.data.length ≠ 1 → (calculate A operation s).2.numStack = s.numStack) ∧
    (operation.data.length = 1 → e = NegativeSqrtError →
      (calculate A operation s).2.numStack = s.numStack.drop 1) ∧
    (operation.data.length = 1 → e ≠ NegativeSqrtError →
      (calculate A operation s).2.numStack = s.numStack.drop 2) :=
  calculate_failure_stack A operation s e h

theorem failed_operator_stack_witness :
    (calculate exactArith "/" ⟨[0, 4, 7], ""⟩).1 = .error DivisionByZeroError ∧
    (calculate exactArith "/" ⟨[0, 4, 7], ""⟩).2.numStack = [7] :=
  have h : (calculate exactArith "/" ⟨[0, 4, 7], ""⟩).1 = .error DivisionByZeroError := by
    simp [calculate, pop, applyOp, exactArith, DivisionByZeroError]
  ⟨h, (failed_operator_stack exactArith "/" ⟨[0, 4, 7], ""⟩ DivisionByZeroError h).2.2
    (by decide) (by decide)⟩

/-- Claim C14 fails for a multi-character token and for a negative square
root: `++` on the stack 1, 2, 3 fails and leaves all three values, and `s` on
the stack -4, 9, 1 (top first) fails and leaves 9 and 1; the claim has 3 alone,
and 1 alone. -/
theorem failed_operator_keeps_operands :
    calculate exactArith "++" ⟨[1, 2, 3], ""⟩ =
      (.error MultiCharOperatorError, ⟨[1, 2, 3], msgMultiChar⟩) ∧
    ([1, 2, 3] : List ℚ) ≠ List.drop 2 [1, 2, 3] ∧
    calculate exactArith "s" ⟨[-4, 9, 1], ""⟩ =
      (.error NegativeSqrtError, ⟨[9, 1], msgNegSqrt⟩) ∧
    ([9, 1] : List ℚ) ≠ List.drop 2 [-4, 9, 1] := by
  refine ⟨rfl, by simp, ?_, by simp⟩
  simp [calculate, pop, applyOp, exactArith, NegativeSqrtError, push]

/-! ### Classification -/

theorem scanNumber_iff (cs : List Char) (k : Nat) :
    scanNumber cs k = true ↔
      (∀ c ∈ cs, isdigit c = true ∨ c = '.') ∧ (cs.count '.' = 0 ∨ k + cs.count '.' ≤ 1) := by
  induction cs generalizing k with
  | nil => simp [scanNumber]
  | cons d ds ih =>
    by_cases hd : d = '.'
    · subst hd
      by_cases hk : k + 1 > 1
      · simp only [scanNumber, if_true, hk, List.count_cons_self, List.mem_cons]
        constructor
        · intro h; simp at h
        · rintro ⟨_, h⟩; omega
      · have hk0 : k = 0 := by omega
        subst hk0
        simp only [scanNumber, if_true, hk, if_false, ih, List.count_cons_self, List.mem_cons]
        constructor
        · rintro ⟨hall, hcnt⟩
          refine ⟨?_, Or.inr (by omega)⟩
          rintro c (rfl | hc)
          · exact Or.inr rfl
          · exact hall c hc
        · rintro ⟨hall, hcnt⟩
          exact ⟨fun c hc => hall c (Or.inr hc), by omega⟩
    · have hcount : (d :: ds).count '.' = ds.count '.' := by
        rw [List.count_cons_of_ne]
        exact fun h => hd h.symm
      by_cases hdig : isdigit d = true
      · have hstep : scanNumber (d :: ds) k = scanNumber ds k := by
          simp [scanNumber, hd, hdig]
        rw [hstep, ih, hcount]
        constructor
        · rintro ⟨hall, hcnt⟩
          refine ⟨?_, hcnt⟩
          intro c hc
          rcases List.mem_cons.mp hc with rfl | hc
          · exact Or.inl hdig
          · exact hall c hc
        · rintro ⟨hall, hcnt⟩
          exact ⟨fun c hc => hall c (List.mem_cons_of_mem _ hc), hcnt⟩
      · have hstep : scanNumber (d :: ds) k = false := by
          simp [scanNumber, hd, hdig]
        rw [hstep]
        constructor
        · intro h; simp at h
        · rintro ⟨hall, _⟩
          rcases hall d (List.mem_cons_self _ _) with h | h
          · exact absurd h hdig
          · exact absurd h hd

theorem isNumber_eq_isNumericLiteral (token : String) :
    isNumber token = isNumericLiteral token := by
  have key : ∀ body : List Char, scanNumber body 0 =
      (body.all (fun c => isdigit c || c = '.') && decide (body.count '.' ≤ 1)) := by
    intro body
    rw [Bool.eq_iff_iff, scanNumber_iff]
    simp only [Bool.and_eq_true, List.all_eq_true, Bool.or_eq_true, decide_eq_true_eq,
      Nat.zero_add]
    constructor
    · rintro ⟨h1, h2⟩
      exact ⟨h1, by omega⟩
    · rintro ⟨h1, h2⟩
      exact ⟨h1, by omega⟩
  unfold isNumber isNumericLiteral
  simp only
  split_ifs
  · rw [← key]
    simp
  · rw [← key]
    simp

/-- Claim C15: `processExpression` treats a token as a numeric literal, handing
it to `stod` and pushing the value, exactly when the token follows the rule:
after one leading `-` of a token longer than one character, only digits and at
most one `.`; every other token goes to `calculate`.  So `-3`, `3.5`, `-.5` are
numbers and `-`, `--3`, `3-`, `1.2.3`, `1e5` are operator tokens. -/
theorem classification_rule (A : Arith D) (token : String) (s : RPNCalculator D) :
    isNumber token = isNumericLiteral token ∧
    (isNumericLiteral token = true →
      processToken A token s =
        match A.stod token with
        | .error e => (.error e, s)
        | .ok num => (.ok (), push num s)) ∧
    (isNumericLiteral token = false → processToken A token s = calculate A token s) ∧
    (isNumber "-3" = true ∧ isNumber "3.5" = true ∧ isNumber "-.5" = true) ∧
    (isNumber "-" = false ∧ isNumber "--3" = false ∧ isNumber "3-" = false ∧
      isNumber "1.2.3" = false ∧ isNumber "1e5" = false) := by
  have h := isNumber_eq_isNumericLiteral token
  refine ⟨h, ?_, ?_, by decide, by decide⟩
  · intro hlit
    simp [processToken, h, hlit]
  · intro hlit
    simp [processToken, h, hlit]

theorem classification_rule_witness :
    isNumericLiteral "-3" = true ∧
    processToken exactArith "-3" ⟨[5], ""⟩ = (.ok (), ⟨[-3, 5], ""⟩) ∧
    isNumericLiteral "--3" = false ∧
    processToken exactArith "--3" ⟨[5], ""⟩ = calculate exactArith "--3" ⟨[5], ""⟩ :=
  have h1 := classification_rule exactArith "-3" ⟨[5], ""⟩
  have h2 := classification_rule exactArith "--3" ⟨[5], ""⟩
  have e : exactArith.stod "-3" = .ok (-3) := by
    simp [exactArith, stodExact, isspace, isdigit, digitsValue]
  ⟨by decide, by rw [h1.2.1 (by decide), e]; rfl, by decide, h2.2.2.1 (by decide)⟩

/-! ### Chaining -/

/-- Claim C17: `clearStack` is total, it leaves the stack empty and the last
error empty from every state, and calling it twice gives the same state as
calling it once. -/
theorem clearStack_idempotent (s : RPNCalculator D) :
    (clearStack s).numStack = [] ∧ getLastError (clearStack s) = "" ∧
    clearStack (clearStack s) = clearStack s := by
  simp [clearStack_eq, getLastError]

/-! ### No reset on entry -/

theorem applyOp_frame (A : Arith D) (operation : String) (op : Char) (a b : D)
    (st st1 extra : List D) (err err1 : String)
    (h : applyOp A operation op a b ⟨st, err⟩ = (.ok (), ⟨st1, err1⟩)) :
    applyOp A operation op a b ⟨st ++ extra, err⟩ = (.ok (), ⟨st1 ++ extra, err1⟩) := by
  unfold applyOp at h ⊢
  split_ifs at h ⊢ <;> simp_all [push] <;> (obtain ⟨h1, h2⟩ := h; subst h1; subst h2; simp)

theorem processToken_frame (A : Arith D) (token : String) (st st1 extra : List D)
    (err err1 : String)
    (h : processToken A token ⟨st, err⟩ = (.ok (), ⟨st1, err1⟩)) :
    processToken A token ⟨st ++ extra, err⟩ = (.ok (), ⟨st1 ++ extra, err1⟩) := by
  unfold processToken at h ⊢
  split_ifs at h ⊢
  · rcases hs : A.stod token with x | x
    · simp [hs] at h
    · simp only [hs, push, Prod.mk.injEq, RPNCalculator.mk.injEq, true_and] at h ⊢
      obtain ⟨h1, h2⟩ := h
      subst h1; subst h2
      simp
  · unfold calculate at h ⊢
    split at h
    · rename_i op hop
      rcases st with _ | ⟨b, _ | ⟨a, rest⟩⟩
      · simp [pop] at h
      · simp [pop] at h
      · simp only [pop] at h
        simpa [hop, pop] using applyOp_frame A token op a b rest st1 extra "" err1 h
    · simp at h

theorem processTokens_frame (A : Arith D) (tokens : List String) (extra : List D) :
    ∀ (st st1 : List D) (err err1 : String),
      processTokens A tokens ⟨st, err⟩ = (.ok (), ⟨st1, err1⟩) →
      processTokens A tokens ⟨st ++ extra, err⟩ = (.ok (), ⟨st1 ++ extra, err1⟩) := by
  induction tokens with
  | nil =>
    intro st st1 err err1 h
    simp only [processTokens, Prod.mk.injEq, RPNCalculator.mk.injEq, true_and] at h ⊢
    exact ⟨by rw [h.1], h.2⟩
  | cons t ts ih =>
    intro st st1 err err1 h
    simp only [processTokens] at h ⊢
    rcases ht : processToken A t ⟨st, err⟩ with ⟨(e | u), ⟨st2, err2⟩⟩
    · simp [ht] at h
    · simp only [ht] at h
      rw [processToken_frame A t st st2 extra err err2 ht]
      exact ih st2 st1 err2 err1 h

theorem processExpression_on_deeper_stack (A : Arith D) (expression : String)
    (err err1 : String) (r : D)
    (h : (processExpression A expression ⟨[], err⟩).1 = .ok r)
    (stack : List D) (hd : 1 ≤ stack.length) :
    processExpression A expression ⟨stack, err1⟩ =
      (.error (MalformedExpressionError (stack.length + 1)), ⟨[], ""⟩) := by
  unfold processExpression at h
  rcases hr : processTokens A (tokenize expression) ⟨[], ""⟩ with ⟨(e1 | u), ⟨st1, e1⟩⟩
  · simp [hr] at h
  · simp only [hr] at h
    rcases st1 with _ | ⟨x, _ | ⟨y, l⟩⟩
    · simp at h
    · have hf := processTokens_frame A _ stack [] [x] "" e1 hr
      simp only [List.nil_append, List.singleton_append] at hf
      rcases stack with _ | ⟨y, l⟩
      · simp at hd
      · simp [processExpression, hf, clearStack_eq, MalformedExpressionError]
    · simp at h

/-- Claim C18: `processExpression` does not reset the stack on entry: an
expression that succeeds with a single value on an empty stack fails, on every
stack of depth `d ≥ 1`, with `MalformedExpressionError` reporting `d + 1`, and
leaves the stack empty. -/
theorem no_reset_on_entry (A : Arith D) (expression : String) (err err1 : String) (r : D)
    (h : (processExpression A expression ⟨[], err⟩).1 = .ok r)
    (stack : List D) (hd : 1 ≤ stack.length) :
    processExpression A expression ⟨stack, err1⟩ =
      (.error (MalformedExpressionError (stack.length + 1)), ⟨[], ""⟩) ∧
    (MalformedExpressionError (stack.length + 1)).what =
      "错误：表达式格式无效，栈中剩余 " ++ toString (stack.length + 1) ++ " 个数字" :=
  ⟨processExpression_on_deeper_stack A expression err err1 r h stack hd, rfl⟩

theorem no_reset_on_entry_witness :
    (processExpression exactArith "3 4 +" .new).2 = ⟨[7], ""⟩ ∧
    processExpression exactArith "1 2 +" ⟨[7], ""⟩ =
      (.error (MalformedExpressionError 2), ⟨[], ""⟩) := by
  have h0 : (processExpression exactArith "3 4 +" .new).2 = ⟨[7], ""⟩ := by
    simp [processExpression, tokenize, tokenizeAux, isspace, processTokens, processToken,
      isNumber, scanNumber, isdigit, exactArith, stodExact, digitsValue, push, calculate, pop,
      applyOp, RPNCalculator.new]
    norm_num
  have h1 : (processExpression exactArith "1 2 +" ⟨[], ""⟩).1 = .ok 3 := by
    simp [processExpression, tokenize, tokenizeAux, isspace, processTokens, processToken,
      isNumber, scanNumber, isdigit, exactArith, stodExact, digitsValue, push, calculate, pop,
      applyOp]
    norm_num
  exact ⟨h0, (no_reset_on_entry exactArith "1 2 +" "" "" 3 h1 [7] (by decide)).1⟩

/-! ### Stack depth -/

theorem applyOp_depth (A : Arith D) (operation : String) (op : Char) (a b : D)
    (s s1 : RPNCalculator D) (h : applyOp A operation op a b s = (.ok (), s1)) :
    op ∈ operatorChars ∧
    (op = 's' → s1.numStack.length = s.numStack.length + 2) ∧
    (op ≠ 's' → s1.numStack.length = s.numStack.length + 1) := by
  unfold applyOp at h
  split_ifs at h <;>
    simp_all [push, operatorChars] <;> subst h <;> simp_all

theorem calculate_depth (A : Arith D) (operation : String) (s s1 : RPNCalculator D)
    (h : calculate A operation s = (.ok (), s1)) :
    (∃ c ∈ operatorChars, operation = String.mk [c]) ∧
    (operation = "s" → s1.numStack.length = s.numStack.length) ∧
    (operation ≠ "s" → s1.numStack.length + 1 = s.numStack.length) := by
  unfold calculate at h
  split at h
  · rename_i op hop
    have hname : operation = String.mk [op] := by
      rw [← hop]
    have hs : operation = "s" ↔ op = 's' := by
      rw [hname]
      constructor
      · intro h1
        have := congrArg String.data h1
        simpa using this
      · rintro rfl
        rfl
    rcases s with ⟨_ | ⟨b, _ | ⟨a, rest⟩⟩, err⟩
    · simp [pop] at h
    · simp [pop] at h
    · simp only [pop] at h
      obtain ⟨h1, h2, h3⟩ := applyOp_depth A operation op a b ⟨rest, ""⟩ s1 h
      refine ⟨⟨op, h1, hname⟩, ?_, ?_⟩
      · intro ho
        have := h2 (hs.mp ho)
        simp only [List.length_cons] at this ⊢
        omega
      · intro ho
        have := h3 (fun hc => ho (hs.mpr hc))
        simp only [List.length_cons] at this ⊢
        omega
  · simp at h

theorem processToken_depth (A : Arith D) (token : String) (s s1 : RPNCalculator D)
    (h : processToken A token s = (.ok (), s1)) :
    s1.numStack.length + loweringCount [token] = s.numStack.length + numericCount [token] := by
  unfold processToken at h
  split_ifs at h with hnum
  · rcases hs : A.stod token with x | x
    · simp [hs] at h
    · simp only [hs, Prod.mk.injEq, true_and] at h
      subst h
      simp [loweringCount, numericCount, hnum, push]
  · have hnum' : isNumber token = false := by simpa using hnum
    obtain ⟨_, h2, h3⟩ := calculate_depth A token s s1 h
    by_cases ho : token = "s"
    · simp [loweringCount, numericCount, hnum', ho, h2 ho]
      rw [ho] at hnum'
      simp [hnum']
    · simp [loweringCount, numericCount, hnum', ho, h3 ho]

theorem counts_cons (token : String) (tokens : List String) :
    numericCount (token :: tokens) = numericCount [token] + numericCount tokens ∧
    loweringCount (token :: tokens) = loweringCount [token] + loweringCount tokens := by
  constructor
  · simp only [numericCount, List.filter_cons, List.filter_nil]
    split_ifs <;> simp
    omega
  · simp only [loweringCount, List.filter_cons, List.filter_nil]
    split_ifs <;> simp
    omega

theorem processTokens_depth (A : Arith D) (tokens : List String) :
    ∀ (s s1 : RPNCalculator D), processTokens A tokens s = (.ok (), s1) →
      s1.numStack.length + loweringCount tokens = s.numStack.length + numericCount tokens := by
  induction tokens with
  | nil =>
    intro s s1 h
    simp only [processTokens, Prod.mk.injEq, true_and] at h
    subst h
    simp [loweringCount, numericCount]
  | cons t ts ih =>
    intro s s1 h
    simp only [processTokens] at h
    rcases ht : processToken A t s with ⟨(e | u), s2⟩
    · simp [ht] at h
    · simp only [ht] at h
      have h1 := processToken_depth A t s s2 ht
      have h2 := ih s2 s1 h
      obtain ⟨c1, c2⟩ := counts_cons t ts
      omega

theorem processExpression_ok_tokens (A : Arith D) (expression : String)
    (s : RPNCalculator D) (r : D) (h : (processExpression A expression s).1 = .ok r) :
    ∃ err, processTokens A (tokenize expression) ⟨s.numStack, ""⟩ = (.ok (), ⟨[r], err⟩) := by
  unfold processExpression at h
  rcases hr : processTokens A (tokenize expression) ⟨s.numStack, ""⟩ with ⟨(e1 | u), ⟨st1, e1⟩⟩
  · simp [hr] at h
  · simp only [hr] at h
    rcases st1 with _ | ⟨x, _ | ⟨y, l⟩⟩
    · simp at h
    · simp only [Except.ok.injEq] at h
      subst h
      exact ⟨e1, rfl⟩
    · simp at h

/-- Claim C19: when all tokens are processed without failure from a stack of
depth `d`, the depth before the final check is `d` plus the number of numeric
tokens minus the number of operator tokens other than `s`; a successful `+`,
`-`, `*`, `/` or `^` lowers the depth by one and a successful `s` keeps it; and
`processExpression` succeeds only when that quantity is one. -/
theorem depth_accounting (A : Arith D) (tokens : List String) (s s1 : RPNCalculator D)
    (h : processTokens A tokens s = (.ok (), s1)) :
    (s1.numStack.length : Int) =
      s.numStack.length + numericCount tokens - loweringCount tokens ∧
    (∀ (operation : String) (t t1 : RPNCalculator D),
      calculate A operation t = (.ok (), t1) →
        (operation ≠ "s" → t1.numStack.length + 1 = t.numStack.length) ∧
        (operation = "s" → t1.numStack.length = t.numStack.length)) ∧
    (∀ (expression : String) (t : RPNCalculator D) (r : D),
      (processExpression A expression t).1 = .ok r →
        (t.numStack.length : Int) + numericCount (tokenize expression)
          - loweringCount (tokenize expression) = 1) := by
  refine ⟨?_, ?_, ?_⟩
  · have := processTokens_depth A tokens s s1 h
    omega
  · intro operation t t1 hc
    obtain ⟨_, h2, h3⟩ := calculate_depth A operation t t1 hc
    exact ⟨h3, h2⟩
  · intro expression t r hr
    obtain ⟨err, hp⟩ := processExpression_ok_tokens A expression t r hr
    have := processTokens_depth A _ _ _ hp
    simp only [List.length_singleton] at this
    omega

theorem depth_accounting_witness :
    processTokens exactArith ["9", "4", "s", "-"] ⟨[1], ""⟩ = (.ok (), ⟨[7, 1], ""⟩) ∧
    numericCount ["9", "4", "s", "-"] = 2 ∧ loweringCount ["9", "4", "s", "-"] = 1 ∧
    (([7, 1] : List ℚ).length : Int) = ([1] : List ℚ).length + (2 : Nat) - (1 : Nat) := by
  have hsq : Nat.sqrt 4 = 2 := by simp [Nat.sqrt, Nat.sqrt.iter]
  have hp : processTokens exactArith ["9", "4", "s", "-"] ⟨[1], ""⟩ =
      (.ok (), ⟨[7, 1], ""⟩) := by
    simp [processTokens, processToken, isNumber, scanNumber, isdigit, isspace, exactArith,
      stodExact, digitsValue, push, calculate, pop, applyOp, hsq]
    norm_num
  have h := (depth_accounting exactArith ["9", "4", "s", "-"] ⟨[1], ""⟩ ⟨[7, 1], ""⟩ hp).1
  have c1 : numericCount ["9", "4", "s", "-"] = 2 := by decide
  have c2 : loweringCount ["9", "4", "s", "-"] = 1 := by decide
  rw [c1, c2] at h
  exact ⟨hp, c1, c2, h⟩

/-! ### Digits -/

end RPN
